import Mathlib

/-!
Verification of the `struct` utility library (src/ts/src/struct.ts) against
its natural-language specification.

The library manipulates JSON-like in-memory trees.  We give a shallow
embedding: the JavaScript value universe is the inductive type `Value`
below, JavaScript objects are insertion-ordered association lists with
string keys, arrays are `List Value`, and the JavaScript `undefined`
value (the library's "absent" marker, `UNDEF` in the source) is the
constructor `Value.vundef`.  JavaScript numbers are modelled as integers
(`Int`); the claims under study only exercise integer arithmetic
(list indices, key coercion with `Math.floor`).  Function values never
occur in the claims under study and are omitted from the universe.

Each definition carries a comment pointing at the source lines it
transcribes.
-/

/-- JavaScript-like value universe.  `vundef` is the JS `undefined`
value (the library's absent marker); `vnull` is JSON null, which the
library treats as distinct from `undefined`.  Maps are insertion-ordered
association lists of string keys, mirroring JS object key order for
non-integer-like keys. -/
inductive Value where
  | vundef
  | vnull
  | vbool (b : Bool)
  | vnum (n : Int)
  | vstr (s : String)
  | vlist (l : List Value)
  | vmap (m : List (String × Value))

namespace Value

mutual

/-- Decidable equality for `Value` (mutual with its nested lists). -/
def decEqV (a b : Value) : Decidable (a = b) := by
  cases a <;> cases b <;>
    try { apply isFalse ; intro h ; injection h }
  case vundef.vundef => exact isTrue rfl
  case vnull.vnull => exact isTrue rfl
  case vbool.vbool x y =>
    exact match decEq x y with
    | isTrue h => isTrue (by rw [h])
    | isFalse h => isFalse (by intro hh; injection hh; contradiction)
  case vnum.vnum x y =>
    exact match decEq x y with
    | isTrue h => isTrue (by rw [h])
    | isFalse h => isFalse (by intro hh; injection hh; contradiction)
  case vstr.vstr x y =>
    exact match decEq x y with
    | isTrue h => isTrue (by rw [h])
    | isFalse h => isFalse (by intro hh; injection hh; contradiction)
  case vlist.vlist x y =>
    exact match decEqVList x y with
    | isTrue h => isTrue (by rw [h])
    | isFalse h => isFalse (by intro hh; injection hh; contradiction)
  case vmap.vmap x y =>
    exact match decEqVPairs x y with
    | isTrue h => isTrue (by rw [h])
    | isFalse h => isFalse (by intro hh; injection hh; contradiction)

/-- Decidable equality for lists of values. -/
def decEqVList (xs ys : List Value) : Decidable (xs = ys) :=
  match xs, ys with
  | [], [] => isTrue rfl
  | _ :: _, [] => isFalse (by intro h; injection h)
  | [], _ :: _ => isFalse (by intro h; injection h)
  | x :: xs, y :: ys =>
    match decEqV x y, decEqVList xs ys with
    | isTrue h1, isTrue h2 => isTrue (by rw [h1, h2])
    | isFalse h1, _ => isFalse (by intro h; injection h; contradiction)
    | _, isFalse h2 => isFalse (by intro h; injection h; contradiction)

/-- Decidable equality for key-value pair lists. -/
def decEqVPairs (xs ys : List (String × Value)) : Decidable (xs = ys) :=
  match xs, ys with
  | [], [] => isTrue rfl
  | _ :: _, [] => isFalse (by intro h; injection h)
  | [], _ :: _ => isFalse (by intro h; injection h)
  | (k1, v1) :: xs, (k2, v2) :: ys =>
    match decEq k1 k2, decEqV v1 v2, decEqVPairs xs ys with
    | isTrue h0, isTrue h1, isTrue h2 => isTrue (by rw [h0, h1, h2])
    | isFalse h0, _, _ => isFalse (by
        intro h; injection h with hp ht
        exact h0 (congrArg Prod.fst hp))
    | _, isFalse h1, _ => isFalse (by
        intro h; injection h with hp ht
        exact h1 (congrArg Prod.snd hp))
    | _, _, isFalse h2 => isFalse (by intro h; injection h; contradiction)

end

end Value

instance : DecidableEq Value := Value.decEqV

/-- Value is a node - defined, and a map (hash) or list (array).
Transcribes `isnode` (struct.ts:156-158): `null != val && 'object' == typeof val`;
in JS both `null` and `undefined` fail the first test. -/
def isnode : Value → Bool
  | .vlist _ => true
  | .vmap _ => true
  | _ => false

/-- Value is a defined map (hash) with string keys.
Transcribes `ismap` (struct.ts:162-164). -/
def ismap : Value → Bool
  | .vmap _ => true
  | _ => false

/-- Value is a defined list (array).
Transcribes `islist` (struct.ts:168-170). -/
def islist : Value → Bool
  | .vlist _ => true
  | _ => false

/-- Value is a defined non-empty string, or a number.
Transcribes `iskey` (struct.ts:174-177):
`('string' === keytype && '' !== key) || 'number' === keytype`. -/
def iskey : Value → Bool
  | .vstr s => s ≠ ""
  | .vnum _ => true
  | _ => false

/-- Check for an "empty" value: undefined, null, empty string, empty
list, map with no keys.  Transcribes `isempty` (struct.ts:181-185);
`null == val` in JS is true for both `null` and `undefined`. -/
def isempty : Value → Bool
  | .vundef => true
  | .vnull => true
  | .vstr s => s = ""
  | .vlist l => l.isEmpty
  | .vmap m => m.isEmpty
  | _ => false

mutual

/-- JS `ToString` as used for property keys and the `'' + key` coercion
in `setprop` (struct.ts:357).  Integers print without a decimal point;
lists print as comma-joined elements; maps as "[object Object]". -/
def toPropString : Value → String
  | .vundef => "undefined"
  | .vnull => "null"
  | .vbool b => if b then "true" else "false"
  | .vnum n => toString n
  | .vstr s => s
  | .vlist l => joinComma l
  | .vmap _ => "[object Object]"

/-- Comma-join of list elements, as JS `Array.prototype.toString`. -/
def joinComma : List Value → String
  | [] => ""
  | [x] => toPropString x
  | x :: xs => toPropString x ++ "," ++ joinComma xs

end

/-- Value of a canonical array-index string ("0", or digits with no
leading zero), `none` otherwise.  JS array access `arr[key]` hits an
element exactly when the stringified key is such a canonical index. -/
def parseCanonicalIndex (s : String) : Option Nat :=
  let cs := s.toList
  if cs ≠ [] ∧ cs.all Char.isDigit ∧ (cs.head? = some '0' → cs = ['0']) then
    some (cs.foldl (fun n c => 10 * n + (c.toNat - '0'.toNat)) 0)
  else
    none

/-- Raw JS property read `val[key]` on a node, as performed inside
`getprop` (struct.ts:204).  Object reads look the stringified key up in
the association list; array reads hit an element exactly for canonical
index keys (other array properties are outside the modelled universe). -/
def jsGetRaw (val key : Value) : Value :=
  match val with
  | .vmap m => ((m.lookup (toPropString key)).getD Value.vundef)
  | .vlist l =>
    match parseCanonicalIndex (toPropString key) with
    | some i => l.getD i Value.vundef
    | none => Value.vundef
  | _ => Value.vundef

/-- Safely get a property of a node; undefined arguments return the
alternative.  Transcribes `getprop` (struct.ts:196-212). -/
def getprop (val key : Value) (alt : Value := Value.vundef) : Value :=
  if val = Value.vundef ∨ key = Value.vundef then alt
  else
    let out := if isnode val then jsGetRaw val key else alt
    if out = Value.vundef then alt else out

/-- Value of property with name key in node val is defined.
Transcribes `haskey` (struct.ts:223-225): `UNDEF !== getprop(val, key)`. -/
def haskey (val key : Value) : Bool :=
  getprop val key ≠ Value.vundef

/-- Lexicographic order on character lists by code point. -/
def charListLe : List Char → List Char → Bool
  | [], _ => true
  | _ :: _, [] => false
  | a :: as, b :: bs =>
    if a.toNat < b.toNat then true
    else if b.toNat < a.toNat then false
    else charListLe as bs

/-- String order used by JS `Array.sort` default comparison (code-unit
lexicographic; identical to code-point order on the basic plane). -/
def strLe (a b : String) : Bool :=
  charListLe a.toList b.toList

/-- Insertion sort step for strings (ascending, as JS `Array.sort`
default on string keys). -/
def insertSortedStr (x : String) : List String → List String
  | [] => [x]
  | y :: ys => if strLe x y then x :: y :: ys else y :: insertSortedStr x ys

/-- Ascending sort of strings, as JS `keys.sort()`. -/
def sortStrings : List String → List String
  | [] => []
  | x :: xs => insertSortedStr x (sortStrings xs)

/-- Insertion sort step for key-value pairs ordered by key. -/
def insertSortedPair (x : String × Value) :
    List (String × Value) → List (String × Value)
  | [] => [x]
  | y :: ys => if strLe x.1 y.1 then x :: y :: ys else y :: insertSortedPair x ys

/-- Sort key-value pairs ascending by key. -/
def sortPairs : List (String × Value) → List (String × Value)
  | [] => []
  | x :: xs => insertSortedPair x (sortPairs xs)

/-- Sorted keys of a map, or indexes of a list (as strings).
Transcribes `keysof` (struct.ts:216-219). -/
def keysof : Value → List String
  | .vmap m => sortStrings (m.map Prod.fst)
  | .vlist l => (List.range l.length).map (fun i => toString i)
  | _ => []

/-- Result of `Math.floor(Number(x))` in JS: not-a-number, an infinity,
or a finite integer. -/
inductive JsNumF where
  | nan
  | pinf
  | ninf
  | fin (i : Int)
  deriving DecidableEq

/-- Value of a digit list in the given radix, `none` if empty or if a
character is not a digit of that radix. -/
def radixVal (radix : Nat) (cs : List Char) : Option Nat :=
  if cs = [] then none
  else
    cs.foldl
      (fun acc c =>
        match acc with
        | none => none
        | some n =>
          let d :=
            if c.isDigit then some (c.toNat - '0'.toNat)
            else if 'a' ≤ c ∧ c ≤ 'f' then some (c.toNat - 'a'.toNat + 10)
            else if 'A' ≤ c ∧ c ≤ 'F' then some (c.toNat - 'A'.toNat + 10)
            else none
          match d with
          | some d => if d < radix then some (radix * n + d) else none
          | none => none)
      (some 0)

/-- Floor of `sign * I.F * 10^e` for decimal digit lists `I` (integer
part) and `F` (fraction part) and exponent `e`, computed exactly.
`Int.fdiv` floors toward negative infinity, matching `Math.floor`. -/
def decFloor (neg : Bool) (ip fp : List Char) (e : Int) : Int :=
  let mant : Int :=
    ((ip ++ fp).foldl (fun n c => 10 * n + (c.toNat - '0'.toNat)) 0 : Nat)
  let mant := if neg then -mant else mant
  let e2 : Int := e - fp.length
  if 0 ≤ e2 then mant * (10 : Int) ^ e2.toNat
  else Int.fdiv mant ((10 : Int) ^ (-e2).toNat)

/-- Split an optional leading sign, returning (negative?, rest). -/
def splitSign : List Char → Bool × List Char
  | '-' :: cs => (true, cs)
  | '+' :: cs => (false, cs)
  | cs => (false, cs)

/-- Parse `digits [. digits] | . digits` with optional `e`/`E` exponent
into (integer digits, fraction digits, exponent), `none` on failure. -/
def parseDecBody (cs : List Char) : Option (List Char × List Char × Int) :=
  let ip := cs.takeWhile Char.isDigit
  let rest1 := cs.dropWhile Char.isDigit
  let (fp, rest2) :=
    match rest1 with
    | '.' :: cs2 => (cs2.takeWhile Char.isDigit, cs2.dropWhile Char.isDigit)
    | _ => ([], rest1)
  if ip = [] ∧ fp = [] then none
  else
    match rest2 with
    | [] => some (ip, fp, 0)
    | 'e' :: cs3 | 'E' :: cs3 =>
      let (eneg, cs4) := splitSign cs3
      match radixVal 10 cs4 with
      | some ev => some (ip, fp, if eneg then -(ev : Int) else (ev : Int))
      | none => none
    | _ => none

/-- The JS `StrWhiteSpaceChar` set trimmed by `Number(string)`:
WhiteSpace (TAB, VT, FF, SP, NBSP, ZWNBSP/BOM and the Unicode Zs space
separators U+1680, U+2000-U+200A, U+202F, U+205F, U+3000) together with
the LineTerminator characters (LF, CR, LS U+2028, PS U+2029). -/
def jsWhitespace (c : Char) : Bool :=
  c = ' ' ∨ c = '\t' ∨ c = '\n' ∨ c = '\r' ∨
  c.toNat = 0x0B ∨ c.toNat = 0x0C ∨ c.toNat = 0xA0 ∨ c.toNat = 0x1680 ∨
  (0x2000 ≤ c.toNat ∧ c.toNat ≤ 0x200A) ∨
  c.toNat = 0x2028 ∨ c.toNat = 0x2029 ∨
  c.toNat = 0x202F ∨ c.toNat = 0x205F ∨ c.toNat = 0x3000 ∨ c.toNat = 0xFEFF

/-- Model of `Math.floor(Number(s))` for a string `s`, the coercion
`keyI = Math.floor(+key)` used by `setprop` for list keys
(struct.ts:367-373).  Covers the JS `StringNumericLiteral` grammar:
trimming of the full JS whitespace set (`jsWhitespace`), empty string
(zero), signed `Infinity`, signed decimal literals with fraction and
exponent, and `0x`/`0o`/`0b` radix literals.  (IEEE-754 rounding of
huge literals is not modelled; it never produces NaN, so the NaN
classification the claims depend on is exact.) -/
def jsStrToNumFloor (s : String) : JsNumF :=
  let cs := s.toList.dropWhile jsWhitespace
  let cs := (cs.reverse.dropWhile jsWhitespace).reverse
  match cs with
  | [] => .fin 0
  | _ =>
    match cs with
    | '0' :: 'x' :: rest | '0' :: 'X' :: rest =>
      match radixVal 16 rest with
      | some n => .fin n
      | none => .nan
    | '0' :: 'o' :: rest | '0' :: 'O' :: rest =>
      match radixVal 8 rest with
      | some n => .fin n
      | none => .nan
    | '0' :: 'b' :: rest | '0' :: 'B' :: rest =>
      match radixVal 2 rest with
      | some n => .fin n
      | none => .nan
    | _ =>
      let (neg, body) := splitSign cs
      if body = "Infinity".toList then
        if neg then .ninf else .pinf
      else
        match parseDecBody body with
        | some (ip, fp, e) => .fin (decFloor neg ip fp e)
        | none => .nan

/-- The `let keyI = +key; if (isNaN(keyI)) ...; keyI = Math.floor(keyI)`
coercion of `setprop` (struct.ts:367-373), for the two key shapes
admitted by `iskey`. -/
def keyToNumFloor : Value → JsNumF
  | .vnum n => .fin n
  | .vstr s => jsStrToNumFloor s
  | _ => .nan

/-- Safely set a property.  Undefined arguments and invalid keys are
ignored; setting `undefined` deletes; list indices at or above the
length append; negative list indices prepend.  Transcribes `setprop`
(struct.ts:351-397).  The source mutates `parent` and returns it; the
model returns the new value. -/
def setprop (parent key val : Value) : Value :=
  if ¬ iskey key then parent
  else
    match parent with
    | .vmap m =>
      let k := toPropString key
      if val = Value.vundef then .vmap (m.filter (fun p => p.1 ≠ k))
      else
        if m.any (fun p => p.1 = k) then
          .vmap (m.map (fun p => if p.1 = k then (k, val) else p))
        else
          .vmap (m ++ [(k, val)])
    | .vlist l =>
      match keyToNumFloor key with
      | .nan => parent
      | .pinf =>
        if val = Value.vundef then parent
        else .vlist (l ++ [val])
      | .ninf =>
        if val = Value.vundef then parent
        else .vlist (val :: l)
      | .fin i =>
        if val = Value.vundef then
          if 0 ≤ i ∧ i < (l.length : Int) then .vlist (l.eraseIdx i.toNat)
          else parent
        else
          if 0 ≤ i then
            if i < (l.length : Int) then .vlist (l.set i.toNat val)
            else .vlist (l ++ [val])
          else .vlist (val :: l)
    | _ => parent

mutual

/-- Clone a JSON-like data structure, i.e. the JSON round trip
`JSON.parse(JSON.stringify(val))` of `clone` (struct.ts:334-341) for
function-free trees: map entries whose value is `undefined` are
dropped, `undefined` list elements become `null`, everything else is
copied structurally. -/
def clone : Value → Value
  | .vundef => .vundef
  | .vnull => .vnull
  | .vbool b => .vbool b
  | .vnum n => .vnum n
  | .vstr s => .vstr s
  | .vlist l => .vlist (cloneList l)
  | .vmap m => .vmap (cloneMap m)

/-- Clone of list elements; `undefined` serializes as `null`. -/
def cloneList : List Value → List Value
  | [] => []
  | x :: xs =>
    (if x = Value.vundef then Value.vnull else clone x) :: cloneList xs

/-- Clone of map entries; `undefined`-valued entries are dropped. -/
def cloneMap : List (String × Value) → List (String × Value)
  | [] => []
  | (k, v) :: ps =>
    if v = Value.vundef then cloneMap ps else (k, clone v) :: cloneMap ps

end

/-- Key-value items of a list, keys being the stringified indexes. -/
def listItems (i : Nat) : List Value → List (String × Value)
  | [] => []
  | x :: xs => (toString i, x) :: listItems (i + 1) xs

/-- List the sorted key-value items of a map or list.  Transcribes
`items` (struct.ts:229-231): pairs in `keysof` order.  For maps (whose
JS representation has unique keys) sorting the entry list by key agrees
with looking each sorted key up. -/
def items : Value → List (String × Value)
  | .vmap m => sortPairs m
  | .vlist l => listItems 0 l
  | _ => []

mutual

/-- Computable structural size of a value, used as the termination
measure for the structural merge. -/
def vsize : Value → Nat
  | .vundef => 1
  | .vnull => 1
  | .vbool _ => 1
  | .vnum _ => 1
  | .vstr _ => 1
  | .vlist l => 1 + vsizeList l
  | .vmap m => 1 + vsizeMap m

/-- Size of a list of values. -/
def vsizeList : List Value → Nat
  | [] => 0
  | x :: xs => 1 + vsize x + vsizeList xs

/-- Size of a list of key-value pairs. -/
def vsizeMap : List (String × Value) → Nat
  | [] => 0
  | (_, v) :: ps => 1 + vsize v + vsizeMap ps

end

/-- Total size of the values in an item list, the termination measure
for the structural merge. -/
def pairsSize : List (String × Value) → Nat
  | [] => 0
  | p :: ps => vsize p.2 + pairsSize ps

theorem value_vsize_pos (v : Value) : 0 < vsize v := by
  cases v <;> simp [vsize]

theorem pairsSize_insertSortedPair (x : String × Value)
    (l : List (String × Value)) :
    pairsSize (insertSortedPair x l) = vsize x.2 + pairsSize l := by
  induction l with
  | nil => rfl
  | cons y ys ih =>
    by_cases h : strLe x.1 y.1 = true
    · simp [insertSortedPair, h, pairsSize]
    · simp only [insertSortedPair, h, if_false, pairsSize, ih]
      omega

theorem pairsSize_sortPairs (l : List (String × Value)) :
    pairsSize (sortPairs l) = pairsSize l := by
  induction l with
  | nil => rfl
  | cons x xs ih =>
    simp [sortPairs, pairsSize_insertSortedPair, ih, pairsSize]

theorem pairsSize_le_vsizeMap (m : List (String × Value)) :
    pairsSize m ≤ vsizeMap m := by
  induction m with
  | nil => simp [pairsSize, vsizeMap]
  | cons p ps ih =>
    cases p with
    | mk k v =>
      simp only [pairsSize, vsizeMap]
      omega

theorem pairsSize_listItems_le (i : Nat) (l : List Value) :
    pairsSize (listItems i l) ≤ vsizeList l := by
  induction l generalizing i with
  | nil => simp [listItems, pairsSize, vsizeList]
  | cons x xs ih =>
    have h := ih (i + 1)
    simp only [listItems, pairsSize, vsizeList]
    omega

theorem items_pairsSize_lt (v : Value) : pairsSize (items v) < vsize v := by
  cases v with
  | vmap m =>
    have h1 := pairsSize_sortPairs m
    have h2 := pairsSize_le_vsizeMap m
    simp only [items, vsize]
    omega
  | vlist l =>
    have h := pairsSize_listItems_le 0 l
    simp only [items, vsize]
    omega
  | vundef => simp [items, pairsSize, vsize]
  | vnull => simp [items, pairsSize, vsize]
  | vbool b => simp [items, pairsSize, vsize]
  | vnum n => simp [items, pairsSize, vsize]
  | vstr s => simp [items, pairsSize, vsize]

/-- Fuel-indexed worker for the structural merge; the fuel only bounds
the recursion depth so that the definition is structurally recursive
(`mergeItemsF_congr` shows any sufficient fuel computes the same value,
and `mergeItems` below always supplies sufficient fuel). -/
def mergeItemsF : Nat → Value → List (String × Value) → Value
  | _, out, [] => out
  | 0, out, _ :: _ => out
  | fuel + 1, out, (k, v) :: rest =>
    if isnode v ∧ ¬ isempty v then
      let sub := getprop out (.vstr k)
      let sub2 := if isnode sub then sub
        else if islist v then Value.vlist [] else Value.vmap []
      mergeItemsF fuel (setprop out (.vstr k) (mergeItemsF fuel sub2 (items v))) rest
    else
      mergeItemsF fuel (setprop out (.vstr k) v) rest

theorem mergeItemsF_congr (fuel : Nat) :
    ∀ (fuel2 : Nat) (out : Value) (its : List (String × Value)),
      pairsSize its < fuel → pairsSize its < fuel2 →
      mergeItemsF fuel out its = mergeItemsF fuel2 out its := by
  induction fuel with
  | zero =>
    intro fuel2 out its h1 h2
    omega
  | succ f ih =>
    intro fuel2 out its h1 h2
    match its with
    | [] =>
      cases fuel2 with
      | zero => omega
      | succ g => rfl
    | (k, v) :: rest =>
      cases fuel2 with
      | zero => omega
      | succ g =>
        have hv := value_vsize_pos v
        have hvi := items_pairsSize_lt v
        simp only [pairsSize] at h1 h2
        simp only [mergeItemsF]
        by_cases hc : isnode v = true ∧ ¬ isempty v = true
        · simp only [hc, if_pos]
          have hinner :
              mergeItemsF f
                (if isnode (getprop out (.vstr k)) then getprop out (.vstr k)
                  else if islist v then Value.vlist [] else Value.vmap [])
                (items v)
              = mergeItemsF g
                (if isnode (getprop out (.vstr k)) then getprop out (.vstr k)
                  else if islist v then Value.vlist [] else Value.vmap [])
                (items v) := by
            apply ih <;> omega
          rw [hinner]
          apply ih <;> omega
        · simp only [hc, if_neg, not_false_eq_true]
          apply ih <;> omega

/-- Structural merge of an item list (the children of an overriding
node) into the accumulator node `out`.  This is the pure form of the
`merger` callback driven by `walk` in `merge` (struct.ts:461-504); the
recursion equations it satisfies are `mergeItems_nil` and
`mergeItems_cons` below: walk visits children (in sorted-key `items`
order) before parents, leaves and empty nodes overwrite the
corresponding slot of `out` via `setprop`, and a non-empty child node is
recursively merged into `out`'s node at that key (a fresh node of the
child's kind when `out` has no node there) and spliced back with
`setprop`. -/
def mergeItems (out : Value) (its : List (String × Value)) : Value :=
  mergeItemsF (pairsSize its + 1) out its

theorem mergeItems_nil (out : Value) : mergeItems out [] = out := rfl

/-- The source-shaped recursion equation for `mergeItems`: children are
processed left to right; a leaf or empty node overwrites the slot; a
non-empty node is merged into the existing (or freshly created) node at
its key and spliced back. -/
theorem mergeItems_cons (out : Value) (k : String) (v : Value)
    (rest : List (String × Value)) :
    mergeItems out ((k, v) :: rest) =
      (if isnode v ∧ ¬ isempty v then
        mergeItems
          (setprop out (.vstr k)
            (mergeItems
              (if isnode (getprop out (.vstr k)) then getprop out (.vstr k)
                else if islist v then Value.vlist [] else Value.vmap [])
              (items v)))
          rest
      else mergeItems (setprop out (.vstr k) v) rest) := by
  have hv := value_vsize_pos v
  have hvi := items_pairsSize_lt v
  show mergeItemsF (pairsSize ((k, v) :: rest) + 1) out ((k, v) :: rest) = _
  have hstep : pairsSize ((k, v) :: rest) + 1 = (vsize v + pairsSize rest) + 1 := by
    simp [pairsSize]
  rw [hstep]
  simp only [mergeItemsF]
  by_cases hc : isnode v = true ∧ ¬ isempty v = true
  · simp only [hc, if_pos]
    rw [mergeItemsF_congr (vsize v + pairsSize rest) (pairsSize (items v) + 1)
      _ (items v) (by omega) (by omega)]
    rw [mergeItemsF_congr (vsize v + pairsSize rest) (pairsSize rest + 1)
      _ rest (by omega) (by omega)]
    rfl
  · simp only [hc, if_neg, not_false_eq_true]
    rw [mergeItemsF_congr (vsize v + pairsSize rest) (pairsSize rest + 1)
      _ rest (by omega) (by omega)]
    rfl

/-- One step of `merge`'s left-to-right fold (struct.ts:448-507): a
non-node later element wins outright; a node later element wins outright
when the accumulator is not a node or differs in node kind; otherwise
the later element is structurally merged into the accumulator. -/
def mergeStep (out obj : Value) : Value :=
  if ¬ isnode obj then obj
  else if ¬ isnode out ∨ (ismap obj ∧ islist out) ∨ (islist obj ∧ ismap out) then
    obj
  else mergeItems out (items obj)

/-- Merge a list of values into each other; later values have
precedence.  Transcribes `merge` (struct.ts:427-510): non-lists pass
through, the empty list gives `undefined`, a singleton gives its
element, and longer lists fold `mergeStep` starting from
`getprop(list, 0, {})`. -/
def merge (val : Value) : Value :=
  match val with
  | .vlist [] => .vundef
  | .vlist [x] => x
  | .vlist l => (l.drop 1).foldl mergeStep (getprop (.vlist l) (.vnum 0) (.vmap []))
  | v => v

/-- JS loose-null test `null == x`, true for both `null` and
`undefined`. -/
def jsNullish : Value → Bool
  | .vundef => true
  | .vnull => true
  | _ => false

/-- Split a character list on dots; `splitDots` below gives the JS
`path.split('.')` semantics (the empty string yields one empty
segment). -/
def splitDotChars : List Char → List (List Char)
  | [] => [[]]
  | c :: rest =>
    if c = '.' then [] :: splitDotChars rest
    else
      match splitDotChars rest with
      | g :: gs => (c :: g) :: gs
      | [] => [[c]]

/-- JS `path.split('.')` (struct.ts:523). -/
def splitDots (s : String) : List String :=
  (splitDotChars s.toList).map (fun cs => String.mk cs)

/-- The `parts` computation of `getpath` (struct.ts:523): a list path is
used as is, a string path is split on dots, anything else leaves
`parts` undefined (and `getpath` then returns `undefined`). -/
def getpathParts : Value → Option (List Value)
  | .vlist ps => some ps
  | .vstr s => some ((splitDots s).map Value.vstr)
  | _ => none

/-- Get a value deep inside a node using a key path.  Transcribes
`getpath` (struct.ts:520-569) for a state that carries at most a `base`
key and no handler; the claims under study are scoped to
handler-free states, for which the final handler invocation
(struct.ts:563-566) is a no-op.  `base` is `getprop(state, 'base')`
(struct.ts:531), so `Value.vundef` when no state is given. -/
def getpathBody (pathNullish : Bool) (parts : List Value)
    (store current base : Value) : Value :=
  if pathNullish = true ∨ jsNullish store = true ∨
      (parts.length = 1 ∧ parts.head? = some (.vstr "")) then
    getprop store base store
  else if 0 < parts.length then
    let pI : Nat := if parts.head? = some (.vstr "") then 1 else 0
    let root := if parts.head? = some (.vstr "") then current else store
    let part := (parts.drop pI).headD Value.vundef
    let first := getprop root part
    let val :=
      if first = Value.vundef ∧ pI = 0 then
        getprop (getprop root base) part
      else first
    (parts.drop (pI + 1)).foldl (fun v p => getprop v p) val
  else
    store

def getpath (path store current base : Value) : Value :=
  match getpathParts path with
  | none => Value.vundef
  | some parts => getpathBody (jsNullish path) parts store current base

/-- True when the string contains the character; transcribes the JS
`key.includes('$')` test of `inject` (struct.ts:697-698). -/
def strHasChar (s : String) (c : Char) : Bool :=
  s.toList.contains c

/-- Insertion of a canonical-index key into a list sorted by numeric
value (JS integer-like object keys enumerate in ascending numeric
order). -/
def insertSortedIdx (x : String) : List String → List String
  | [] => [x]
  | y :: ys =>
    if (parseCanonicalIndex x).getD 0 ≤ (parseCanonicalIndex y).getD 0 then
      x :: y :: ys
    else y :: insertSortedIdx x ys

/-- Numeric sort of canonical-index keys. -/
def sortIdxKeys : List String → List String
  | [] => []
  | x :: xs => insertSortedIdx x (sortIdxKeys xs)

/-- JS `Object.keys` enumeration order for an insertion-ordered object:
canonical array-index keys first in ascending numeric order, then the
remaining string keys in insertion order. -/
def jsObjectKeys (m : List (String × Value)) : List String :=
  let ks := m.map Prod.fst
  sortIdxKeys (ks.filter (fun k => (parseCanonicalIndex k).isSome))
    ++ ks.filter (fun k => (parseCanonicalIndex k).isNone)

/-- The iteration key order computed by `inject` for a map node
(struct.ts:696-699):
`[...Object.keys(val).filter(k => !k.includes('$')),
  ...Object.keys(val).filter(k => k.includes('$')).sort()]` —
the keys without a dollar sign in `Object.keys` order (NOT sorted),
followed by the keys containing a dollar sign, sorted ascending. -/
def injectKeyOrder (m : List (String × Value)) : List String :=
  (jsObjectKeys m).filter (fun k => ¬ strHasChar k '$')
    ++ sortStrings ((jsObjectKeys m).filter (fun k => strHasChar k '$'))

/-- Outcome of a top-level `validate` call: either a raised failure
carrying a message, or a normal return of the transform result. -/
inductive VResult where
  | raise (msg : String)
  | ok (out : Value)
  deriving DecidableEq

/-- The error finalization of `validate` (struct.ts:1436 and
1469-1473).  `collecterrs` is the optional caller-supplied error sink
(`none` models a `null`/`undefined` argument, the `null == collecterrs`
test); `errs` is the error list accumulated by the validation traversal
(when `collecterrs` is supplied, `errs` IS that caller-owned list: the
source threads the same array through the traversal, so all errors are
appended to it).  The traversal itself is abstracted as the `errs`
argument; its result value is `out`.  A non-empty error list without a
caller sink raises a single aggregate failure whose message joins all
messages with newlines; otherwise the transform result is returned. -/
def validateFinalize (collecterrs : Option (List String)) (errs : List String)
    (out : Value) : VResult :=
  if 0 < errs.length ∧ collecterrs = none then
    .raise ("Invalid data: " ++ String.intercalate "\n" errs)
  else
    .ok out

/-! Helper lemmas about association-list lookups and `setprop`. -/

theorem lookup_cons_ne {es : List (String × Value)} {k k1 : String} {v1 : Value}
    (h : k ≠ k1) : ((k1, v1) :: es).lookup k = es.lookup k := by
  have hb : (k == k1) = false := by simp [h]
  simp [List.lookup, hb]

theorem lookup_cons_self (es : List (String × Value)) (k : String) (v1 : Value) :
    ((k, v1) :: es).lookup k = some v1 := by
  simp [List.lookup]

theorem lookup_filter_ne (m : List (String × Value)) (k : String) :
    (m.filter (fun p => p.1 ≠ k)).lookup k = none := by
  induction m with
  | nil => rfl
  | cons p ps ih =>
    cases p with
    | mk k1 v1 =>
      rw [List.filter_cons]
      by_cases h : k1 = k
      · rw [if_neg (by simp [h])]
        exact ih
      · rw [if_pos (by simp [h]), lookup_cons_ne (fun hh => h hh.symm)]
        exact ih

theorem lookup_assign_any (m : List (String × Value)) (k : String) (x : Value)
    (h : m.any (fun p => p.1 = k) = true) :
    (m.map (fun p => if p.1 = k then (k, x) else p)).lookup k = some x := by
  induction m with
  | nil => simp at h
  | cons p ps ih =>
    cases p with
    | mk k1 v1 =>
      by_cases hk : k1 = k
      · simp only [List.map_cons, if_pos hk]
        exact lookup_cons_self _ k x
      · rw [List.any_cons] at h
        simp only [Bool.or_eq_true, decide_eq_true_eq] at h
        rcases h with h | h
        · exact absurd h hk
        · simp only [List.map_cons, if_neg hk]
          rw [lookup_cons_ne (fun hh => hk hh.symm)]
          exact ih h

theorem lookup_append_single (m : List (String × Value)) (k : String) (x : Value)
    (h : m.any (fun p => p.1 = k) = false) :
    (m ++ [(k, x)]).lookup k = some x := by
  induction m with
  | nil => exact lookup_cons_self _ k x
  | cons p ps ih =>
    cases p with
    | mk k1 v1 =>
      simp only [List.any_cons, Bool.or_eq_false_iff] at h
      have hk : k ≠ k1 := by
        intro hkk
        subst hkk
        simp at h
      rw [List.cons_append, lookup_cons_ne hk]
      exact ih (by simpa using h.2)

/-- `getprop` on a map with a string key is an association-list lookup
defaulting to `undefined`. -/
theorem getprop_vmap (m : List (String × Value)) (k : String) :
    getprop (.vmap m) (.vstr k) = (m.lookup k).getD Value.vundef := by
  show (if (Value.vmap m) = Value.vundef ∨ (Value.vstr k) = Value.vundef then _ else _) = _
  rw [if_neg (by simp)]
  show (if ((m.lookup (toPropString (.vstr k))).getD Value.vundef) = Value.vundef
    then Value.vundef else ((m.lookup (toPropString (.vstr k))).getD Value.vundef)) = _
  by_cases h : ((m.lookup k).getD Value.vundef) = Value.vundef
  · rw [show toPropString (.vstr k) = k from rfl, if_pos h, h]
  · rw [show toPropString (.vstr k) = k from rfl, if_neg h]

theorem setprop_map_assign (m : List (String × Value)) (k : String) (x : Value)
    (hk : k ≠ "") (hx : x ≠ Value.vundef) :
    setprop (.vmap m) (.vstr k) x =
      .vmap (if m.any (fun p => p.1 = k) then
          m.map (fun p => if p.1 = k then (k, x) else p)
        else m ++ [(k, x)]) := by
  show (if ¬ iskey (.vstr k) then _ else _) = _
  rw [if_neg (by simp [iskey, hk])]
  show (if x = Value.vundef then _ else _) = _
  rw [if_neg hx]
  simp only [show toPropString (.vstr k) = k from rfl]
  rw [apply_ite Value.vmap]

theorem setprop_map_delete (m : List (String × Value)) (k : String)
    (hk : k ≠ "") :
    setprop (.vmap m) (.vstr k) .vundef = .vmap (m.filter (fun p => p.1 ≠ k)) := by
  show (if ¬ iskey (.vstr k) then _ else _) = _
  rw [if_neg (by simp [iskey, hk])]
  rfl

/-- Setting a non-absent value at a non-empty string key on a map makes
it readable at that key. -/
theorem setprop_map_getprop_self (m : List (String × Value)) (k : String)
    (x : Value) (hk : k ≠ "") (hx : x ≠ Value.vundef) :
    getprop (setprop (.vmap m) (.vstr k) x) (.vstr k) = x := by
  rw [setprop_map_assign m k x hk hx]
  by_cases h : m.any (fun p => p.1 = k) = true
  · rw [if_pos h, getprop_vmap, lookup_assign_any m k x h]
    rfl
  · rw [if_neg h, getprop_vmap,
      lookup_append_single m k x (Bool.eq_false_iff.mpr h)]
    rfl

theorem eraseIdx_take_drop (l : List Value) (n : Nat) :
    l.eraseIdx n = l.take n ++ l.drop (n + 1) := by
  induction l generalizing n with
  | nil => simp [List.eraseIdx]
  | cons x xs ih =>
    cases n with
    | zero => simp [List.eraseIdx]
    | succ n => simp [List.eraseIdx, ih]

/-- Unfolding of `setprop` on a list with an integer key
(struct.ts:365-393). -/
theorem setprop_list_num (l : List Value) (i : Int) (x : Value) :
    setprop (.vlist l) (.vnum i) x =
      (if x = Value.vundef then
        (if 0 ≤ i ∧ i < (l.length : Int) then Value.vlist (l.eraseIdx i.toNat)
          else .vlist l)
      else if 0 ≤ i then
        (if i < (l.length : Int) then .vlist (l.set i.toNat x)
          else .vlist (l ++ [x]))
      else .vlist (x :: l)) := by
  show (if ¬ iskey (.vnum i) then _ else _) = _
  rw [if_neg (by simp [iskey])]
  rfl

/-- C3: on a list, `setprop` with `absent` at a valid index removes the
element and shifts later elements down (no holes); a present value at an
index at or above the length appends at the end; a present value at a
negative index prepends; a present value at a valid index overwrites.
Transcribes the behavior of `setprop` (struct.ts:365-393). -/
theorem c3_list_setprop (l : List Value) (i : Int) (x : Value) :
    (0 ≤ i → i < (l.length : Int) →
      setprop (.vlist l) (.vnum i) Value.vundef
        = .vlist (l.take i.toNat ++ l.drop (i.toNat + 1)))
    ∧ (x ≠ Value.vundef → (l.length : Int) ≤ i →
      setprop (.vlist l) (.vnum i) x = .vlist (l ++ [x]))
    ∧ (x ≠ Value.vundef → i < 0 →
      setprop (.vlist l) (.vnum i) x = .vlist (x :: l))
    ∧ (x ≠ Value.vundef → 0 ≤ i → i < (l.length : Int) →
      setprop (.vlist l) (.vnum i) x = .vlist (l.set i.toNat x)) := by
  refine ⟨?_, ?_, ?_, ?_⟩
  · intro h0 hlen
    rw [setprop_list_num, if_pos rfl, if_pos ⟨h0, hlen⟩, eraseIdx_take_drop]
  · intro hx hlen
    have h0 : 0 ≤ i := le_trans (by positivity) hlen
    rw [setprop_list_num, if_neg hx, if_pos h0, if_neg (by omega)]
  · intro hx hneg
    rw [setprop_list_num, if_neg hx, if_neg (by omega)]
  · intro hx h0 hlen
    rw [setprop_list_num, if_neg hx, if_pos h0, if_pos hlen]

/-- Witness for C3 at concrete inputs: removal shifts down, overflow
appends at the end, negative prepends, in-range overwrites. -/
theorem c3_list_setprop_witness :
    setprop (.vlist [Value.vnum 1, Value.vnum 2, Value.vnum 3]) (.vnum 1)
        Value.vundef = .vlist [Value.vnum 1, Value.vnum 3]
    ∧ setprop (.vlist [Value.vnum 1]) (.vnum 5) (Value.vnum 9)
        = .vlist [Value.vnum 1, Value.vnum 9]
    ∧ setprop (.vlist [Value.vnum 1]) (.vnum (-2)) (Value.vnum 9)
        = .vlist [Value.vnum 9, Value.vnum 1]
    ∧ setprop (.vlist [Value.vnum 1, Value.vnum 2]) (.vnum 0) (Value.vnum 9)
        = .vlist [Value.vnum 9, Value.vnum 2] := by
  refine ⟨?_, ?_, ?_, ?_⟩
  · exact ((c3_list_setprop [Value.vnum 1, Value.vnum 2, Value.vnum 3] 1
      Value.vundef).1 (by decide) (by decide)).trans (by decide)
  · exact ((c3_list_setprop [Value.vnum 1] 5 (Value.vnum 9)).2.1
      (by decide) (by decide)).trans (by decide)
  · exact ((c3_list_setprop [Value.vnum 1] (-2) (Value.vnum 9)).2.2.1
      (by decide) (by decide)).trans (by decide)
  · exact ((c3_list_setprop [Value.vnum 1, Value.vnum 2] 0 (Value.vnum 9)).2.2.2
      (by decide) (by decide) (by decide)).trans (by decide)

/-- C4: for every map, non-empty string key `k` and value `x` that is
not absent, `getprop(setprop(m, k, x), k) = x`, and after
`setprop(m, k, absent)` the key is no longer present (`haskey` is
false).  Transcribes `setprop` (struct.ts:356-364), `getprop`
(struct.ts:196-212) and `haskey` (struct.ts:223-225). -/
theorem c4_setprop_getprop_roundtrip (m : List (String × Value)) (k : String)
    (x : Value) (hk : k ≠ "") (hx : x ≠ Value.vundef) :
    getprop (setprop (.vmap m) (.vstr k) x) (.vstr k) = x
    ∧ haskey (setprop (.vmap m) (.vstr k) .vundef) (.vstr k) = false := by
  constructor
  · exact setprop_map_getprop_self m k x hk hx
  · rw [setprop_map_delete m k hk]
    show decide (getprop (Value.vmap (m.filter (fun p => p.1 ≠ k)))
      (.vstr k) ≠ Value.vundef) = false
    rw [getprop_vmap, lookup_filter_ne]
    rfl

/-- Witness for C4 at a concrete map, key and value. -/
theorem c4_setprop_getprop_roundtrip_witness :
    getprop (setprop (.vmap [("a", Value.vnum 1)]) (.vstr "b") (Value.vnum 2))
        (.vstr "b") = Value.vnum 2
    ∧ haskey (setprop (.vmap [("a", Value.vnum 1), ("b", Value.vnum 3)])
        (.vstr "b") .vundef) (.vstr "b") = false :=
  ⟨(c4_setprop_getprop_roundtrip [("a", Value.vnum 1)] "b" (Value.vnum 2)
      (by decide) (by decide)).1,
   (c4_setprop_getprop_roundtrip [("a", Value.vnum 1), ("b", Value.vnum 3)]
      "b" (Value.vnum 2) (by decide) (by decide)).2⟩

/-- C5: `merge` of an empty list is absent and `merge` of a singleton is
its element, per the two length cases of `merge` (struct.ts:438-443). -/
theorem c5_merge_identity :
    merge (.vlist []) = Value.vundef ∧ ∀ x : Value, merge (.vlist [x]) = x :=
  ⟨rfl, fun _ => rfl⟩

/-- C9: `merge` of a value that is not a list returns the value itself
unchanged (the `!islist(val)` passthrough, struct.ts:431-433). -/
theorem c9_merge_nonlist_passthrough (v : Value) (h : islist v = false) :
    merge v = v := by
  cases v <;> first
    | rfl
    | simp [islist] at h

/-- Witness for C9: a map and a scalar pass through `merge`. -/
theorem c9_merge_nonlist_passthrough_witness :
    merge (.vmap [("a", Value.vnum 1)]) = .vmap [("a", Value.vnum 1)]
    ∧ merge (Value.vnum 5) = Value.vnum 5 :=
  ⟨c9_merge_nonlist_passthrough (.vmap [("a", Value.vnum 1)]) (by decide),
   c9_merge_nonlist_passthrough (Value.vnum 5) (by decide)⟩

/-- C10: a non-empty string key that does not coerce to a number
(`Number(key)` is NaN) is accepted by `iskey` yet leaves a list parent
completely unchanged in `setprop` (the `isNaN` early return,
struct.ts:369-371). -/
theorem c10_list_setprop_nonnumeric_key (l : List Value) (k : String)
    (x : Value) (hk : k ≠ "") (hnan : jsStrToNumFloor k = JsNumF.nan) :
    iskey (.vstr k) = true ∧ setprop (.vlist l) (.vstr k) x = .vlist l := by
  constructor
  · simp [iskey, hk]
  · show (if ¬ iskey (.vstr k) then _ else _) = _
    rw [if_neg (by simp [iskey, hk])]
    have hn : keyToNumFloor (.vstr k) = JsNumF.nan := hnan
    simp only [hn]

/-- Witness for C10 with the non-numeric key "a" (and a present and an
absent value). -/
theorem c10_list_setprop_nonnumeric_key_witness :
    iskey (.vstr "a") = true
    ∧ setprop (.vlist [Value.vnum 7]) (.vstr "a") (Value.vnum 9)
        = .vlist [Value.vnum 7]
    ∧ setprop (.vlist [Value.vnum 7]) (.vstr "a") Value.vundef
        = .vlist [Value.vnum 7] :=
  ⟨(c10_list_setprop_nonnumeric_key [Value.vnum 7] "a" (Value.vnum 9)
      (by decide) (by decide)).1,
   (c10_list_setprop_nonnumeric_key [Value.vnum 7] "a" (Value.vnum 9)
      (by decide) (by decide)).2,
   (c10_list_setprop_nonnumeric_key [Value.vnum 7] "a" Value.vundef
      (by decide) (by decide)).2⟩

/-- C6: in `merge`'s left-to-right fold, a later element that is not a
node replaces the accumulator outright, as does a node element when the
accumulator is not a node or differs in node kind (map vs list); and for
lists of length at least two, `merge` is exactly the left fold of
`mergeStep` over the tail, started at `getprop(list, 0, {})`
(struct.ts:446-460). -/
theorem c6_merge_step_kind_wins :
    (∀ out obj : Value,
      isnode obj = false ∨ isnode out = false ∨ ismap obj ≠ ismap out →
      mergeStep out obj = obj)
    ∧ ∀ (a b : Value) (rest : List Value),
        merge (.vlist (a :: b :: rest))
          = (b :: rest).foldl mergeStep
              (getprop (.vlist (a :: b :: rest)) (.vnum 0) (.vmap [])) := by
  constructor
  · intro out obj h
    cases obj <;> cases out <;>
      simp [mergeStep, isnode, ismap, islist] at h ⊢
  · intro a b rest
    rfl

/-- Witness for C6: a list replaces a map accumulator, a scalar replaces
a map accumulator, a map replaces a scalar accumulator, and the fold
equation instantiated at a two-element list. -/
theorem c6_merge_step_kind_wins_witness :
    mergeStep (.vmap [("a", Value.vnum 1)]) (.vlist [Value.vnum 5])
        = .vlist [Value.vnum 5]
    ∧ mergeStep (.vmap [("a", Value.vnum 1)]) (Value.vnum 9) = Value.vnum 9
    ∧ mergeStep (Value.vnum 9) (.vmap [("a", Value.vnum 1)])
        = .vmap [("a", Value.vnum 1)]
    ∧ merge (.vlist [Value.vnum 9, .vmap [("a", Value.vnum 1)]])
        = [Value.vmap [("a", Value.vnum 1)]].foldl mergeStep
            (getprop (.vlist [Value.vnum 9, .vmap [("a", Value.vnum 1)]])
              (.vnum 0) (.vmap [])) :=
  ⟨c6_merge_step_kind_wins.1 (.vmap [("a", Value.vnum 1)])
      (.vlist [Value.vnum 5]) (by decide),
   c6_merge_step_kind_wins.1 (.vmap [("a", Value.vnum 1)])
      (Value.vnum 9) (by decide),
   c6_merge_step_kind_wins.1 (Value.vnum 9)
      (.vmap [("a", Value.vnum 1)]) (by decide),
   c6_merge_step_kind_wins.2 (Value.vnum 9) (.vmap [("a", Value.vnum 1)]) []⟩

/-- C1 (divergence witness): for the insertion order `b` before `a` and
no dollar-sign keys, `inject`'s computed key order keeps the insertion
order `["b", "a"]`; the sorted ascending order the claim (and the
comment at struct.ts:692) prescribes would be `["a", "b"]`.  The
dollar-sign keys, by contrast, are indeed sorted. -/
theorem c1_inject_key_order_at_failing_input :
    injectKeyOrder [("b", Value.vnum 1), ("a", Value.vnum 2)] = ["b", "a"]
    ∧ sortStrings ["b", "a"] = ["a", "b"]
    ∧ (["b", "a"] : List String) ≠ ["a", "b"]
    ∧ injectKeyOrder [("b", Value.vnum 1), ("$Z", Value.vnum 2),
        ("a", Value.vnum 3), ("$A", Value.vnum 4)]
      = ["b", "a", "$A", "$Z"] := by
  refine ⟨by decide, by decide, by decide, by decide⟩

/-- C8: `validate` raises exactly when the accumulated error list is
non-empty and no `collectErrs` argument was supplied, and then the
single aggregate failure message joins all collected messages with
newlines; with `collectErrs` supplied the result is returned normally
(struct.ts:1436, 1469-1473). -/
theorem c8_validate_raise_condition :
    (∀ (ce : Option (List String)) (errs : List String) (out : Value)
        (msg : String),
      validateFinalize ce errs out = .raise msg →
        errs ≠ [] ∧ ce = none
        ∧ msg = "Invalid data: " ++ String.intercalate "\n" errs)
    ∧ (∀ (errs : List String) (out : Value), errs ≠ [] →
        validateFinalize none errs out
          = .raise ("Invalid data: " ++ String.intercalate "\n" errs))
    ∧ ∀ (c : List String) (errs : List String) (out : Value),
        validateFinalize (some c) errs out = .ok out := by
  refine ⟨?_, ?_, ?_⟩
  · intro ce errs out msg h
    unfold validateFinalize at h
    by_cases hc : 0 < errs.length ∧ ce = none
    · rw [if_pos hc] at h
      injection h with hmsg
      refine ⟨?_, hc.2, hmsg.symm⟩
      intro he
      rw [he] at hc
      simp at hc
    · rw [if_neg hc] at h
      exact absurd h (by simp)
  · intro errs out he
    unfold validateFinalize
    rw [if_pos ⟨by
      cases errs with
      | nil => exact absurd rfl he
      | cons a as => simp, rfl⟩]
  · intro c errs out
    unfold validateFinalize
    rw [if_neg (by simp)]

/-- Witness for C8: a raise with two errors and no sink carries the
newline-joined message; a supplied sink suppresses the raise. -/
theorem c8_validate_raise_condition_witness :
    validateFinalize none ["e1", "e2"] (Value.vnum 1)
        = .raise "Invalid data: e1\ne2"
    ∧ validateFinalize (some ["e1"]) ["e1"] (Value.vnum 1) = .ok (Value.vnum 1)
    ∧ (["e1"] : List String) ≠ [] ∧ (none : Option (List String)) = none :=
  ⟨(c8_validate_raise_condition.2.1 ["e1", "e2"] (Value.vnum 1)
      (by decide)).trans (by decide),
   c8_validate_raise_condition.2.2 ["e1"] ["e1"] (Value.vnum 1),
   (c8_validate_raise_condition.1 none ["e1"] (Value.vnum 0) "Invalid data: e1"
      (by decide)).1,
   (c8_validate_raise_condition.1 none ["e1"] (Value.vnum 0) "Invalid data: e1"
      (by decide)).2.1⟩

/-- C7 counterexample: with an absent path, `getpath` returns absent
(the early return at struct.ts:525-527) — not the base-wrapped store
value the claim prescribes (here `store[base] = 7`). -/
theorem c7_getpath_absent_path_counterexample :
    getpath Value.vundef (.vmap [("$TOP", Value.vnum 7)]) Value.vundef
        (.vstr "$TOP") = Value.vundef
    ∧ getprop (.vmap [("$TOP", Value.vnum 7)]) (.vstr "$TOP")
        (.vmap [("$TOP", Value.vnum 7)]) = Value.vnum 7
    ∧ Value.vundef ≠ Value.vnum 7 := by
  refine ⟨rfl, by decide, by decide⟩

/-- C7 (amended): an empty-string path or a single empty-string segment
yields `store[base]` falling back to `store`; an absent (or null) path
yields absent; a path whose first segment is the empty string resolves
locally from `current` with the leading empty segment skipped; and a
dotted string path behaves as its dot-split segment list. -/
theorem c7_getpath_empty_and_local (store current base : Value)
    (rest : List Value) (hs : jsNullish store = false) (hr : rest ≠ []) :
    getpath (.vstr "") store current base = getprop store base store
    ∧ getpath (.vlist [.vstr ""]) store current base = getprop store base store
    ∧ getpath Value.vundef store current base = Value.vundef
    ∧ getpath Value.vnull store current base = Value.vundef
    ∧ getpath (.vlist (.vstr "" :: rest)) store current base
        = rest.foldl (fun v p => getprop v p) current
    ∧ ∀ s : String, getpath (.vstr s) store current base
        = getpath (.vlist ((splitDots s).map Value.vstr)) store current base := by
  refine ⟨?_, ?_, rfl, rfl, ?_, ?_⟩
  · show getpathBody false [Value.vstr ""] store current base = _
    unfold getpathBody
    exact if_pos (Or.inr (Or.inr (by decide)))
  · show getpathBody false [Value.vstr ""] store current base = _
    unfold getpathBody
    exact if_pos (Or.inr (Or.inr (by decide)))
  · cases rest with
    | nil => exact absurd rfl hr
    | cons p ps =>
      show getpathBody false (Value.vstr "" :: p :: ps) store current base = _
      unfold getpathBody
      rw [if_neg (by simp [hs]), if_pos (by simp)]
      show (List.foldl (fun v q => getprop v q)
          (if getprop current p = Value.vundef ∧ (1 : Nat) = 0
            then getprop (getprop current base) p
            else getprop current p)
          ps) = _
      rw [if_neg (by simp), List.foldl_cons]
  · intro s
    rfl

/-- Witness for C7 (amended) at a concrete store, current and base:
the empty path returns the base-wrapped store data, and a local path
resolves against `current`. -/
theorem c7_getpath_empty_and_local_witness :
    getpath (.vstr "") (.vmap [("$TOP", Value.vmap [("a", Value.vnum 1)])])
        (.vmap [("x", Value.vnum 42)]) (.vstr "$TOP")
      = .vmap [("a", Value.vnum 1)]
    ∧ getpath (.vlist [.vstr "", .vstr "x"])
        (.vmap [("$TOP", Value.vmap [("a", Value.vnum 1)])])
        (.vmap [("x", Value.vnum 42)]) (.vstr "$TOP")
      = Value.vnum 42 :=
  ⟨((c7_getpath_empty_and_local
      (.vmap [("$TOP", Value.vmap [("a", Value.vnum 1)])])
      (.vmap [("x", Value.vnum 42)]) (.vstr "$TOP") [.vstr "x"]
      (by decide) (by decide)).1).trans (by decide),
   ((c7_getpath_empty_and_local
      (.vmap [("$TOP", Value.vmap [("a", Value.vnum 1)])])
      (.vmap [("x", Value.vnum 42)]) (.vstr "$TOP") [.vstr "x"]
      (by decide) (by decide)).2.2.2.2.1).trans (by decide)⟩

/-! Support lemmas for the `$MERGE` directive claim. -/

theorem setprop_vmap_vstr_ismap (m : List (String × Value)) (k : String)
    (w : Value) : ismap (setprop (.vmap m) (.vstr k) w) = true := by
  by_cases hk : k = ""
  · subst hk
    show ismap (if ¬ iskey (.vstr "") then _ else _) = true
    rw [if_pos (by simp [iskey])]
    rfl
  · by_cases hw : w = Value.vundef
    · subst hw
      rw [setprop_map_delete m k hk]
      rfl
    · rw [setprop_map_assign m k w hk hw]
      rfl

theorem mergeItems_ismap (its : List (String × Value)) :
    ∀ out : Value, ismap out = true → ismap (mergeItems out its) = true := by
  induction its with
  | nil =>
    intro out h
    rw [mergeItems_nil]
    exact h
  | cons p rest ih =>
    intro out h
    cases p with
    | mk k v =>
      cases out with
      | vmap m =>
        rw [mergeItems_cons]
        by_cases hc : isnode v = true ∧ ¬ isempty v = true
        · rw [if_pos hc]
          exact ih _ (setprop_vmap_vstr_ismap m k _)
        · rw [if_neg hc]
          exact ih _ (setprop_vmap_vstr_ismap m k v)
      | vundef => simp [ismap] at h
      | vnull => simp [ismap] at h
      | vbool b => simp [ismap] at h
      | vnum n => simp [ismap] at h
      | vstr s => simp [ismap] at h
      | vlist l => simp [ismap] at h

